import Mathlib

/-!
Verification development for the Blueprint Builder (FIBO) repository.

The embedding follows `src/main.py`: a pydantic schema `FinancialAsset`,
a deterministic `PatchEngine` with three repair heuristics, a SHA-256
trace identifier over the canonical (key-sorted) JSON serialization,
a JSON-file ledger with an append operation, and the `build` command
orchestrating validate, patch, re-validate, certify and ledger append.

Modelling conventions:
* Python dictionaries (insertion ordered, string keys) are association
  lists `List (String × Value)`; JSON scalars are the `Value` inductive.
* Python floats are modelled as exact rationals `ℚ`; every numeric value
  appearing in the claims is exactly representable, so no rounding
  behaviour is modelled.
* Python string case operations are modelled per character over the ASCII
  range, matching `str.upper` / `str.lower` / `str.isupper` on ASCII text.
* Code that can raise an uncaught exception is embedded in `Except`;
  code whose exceptions are all caught is embedded as a total function.
-/

/-- ASCII uppercase of one character, as Python `str.upper` acts on ASCII. -/
def pyUpperChar (c : Char) : Char :=
  if 97 ≤ c.toNat ∧ c.toNat ≤ 122 then Char.ofNat (c.toNat - 32) else c

/-- ASCII lowercase of one character, as Python `str.lower` acts on ASCII. -/
def pyLowerChar (c : Char) : Char :=
  if 65 ≤ c.toNat ∧ c.toNat ≤ 90 then Char.ofNat (c.toNat + 32) else c

/-- Python `str.upper` (ASCII model). -/
def pyUpper (s : String) : String := String.mk (s.data.map pyUpperChar)

/-- Python `str.lower` (ASCII model). -/
def pyLower (s : String) : String := String.mk (s.data.map pyLowerChar)

/-- Python `str.isupper`: at least one cased character and no lowercase
character (cased characters modelled as ASCII letters). -/
def pyIsUpper (s : String) : Bool :=
  s.data.any Char.isAlpha && s.data.all (fun c => !c.isLower)

/-- Python substring test `pat in hay`. -/
def containsSub (hay pat : String) : Bool :=
  (List.range (hay.data.length + 1)).any (fun i => pat.data.isPrefixOf (hay.data.drop i))

/-- Numeric value of a list of decimal digit characters, most significant first. -/
def digitsVal (cs : List Char) : Nat :=
  cs.foldl (fun n c => 10 * n + (c.toNat - 48)) 0

/-- Split a character list at every occurrence of the separator, like
Python `str.split(sep)` for a one-character separator. -/
def splitOnChar (sep : Char) : List Char → List (List Char)
  | [] => [[]]
  | c :: cs =>
    match splitOnChar sep cs with
    | [] => if c = sep then [[], []] else [[c]]
    | g :: gs => if c = sep then [] :: g :: gs else (c :: g) :: gs

/-- JSON-like values carried in a raw record mapping. -/
inductive Value where
  | str (s : String)
  | num (q : ℚ)
  | bool (b : Bool)
  | null
  | arr (vs : List Value)

/-- A Python dict of JSON data: insertion-ordered association list. -/
abbrev Dict := List (String × Value)

/-- A calendar timestamp, the shape produced by `datetime`. -/
structure DateTime where
  year : Nat
  month : Nat
  day : Nat
  hour : Nat
  minute : Nat
  second : Nat
deriving DecidableEq

/-- Gregorian leap-year test used by `datetime` date validation. -/
def isLeapYear (y : Nat) : Bool :=
  y % 4 = 0 && (y % 100 ≠ 0 || y % 400 = 0)

/-- Number of days in a month, as `datetime` accepts them. -/
def daysInMonth (y m : Nat) : Nat :=
  if m = 2 then (if isLeapYear y then 29 else 28)
  else if m = 4 ∨ m = 6 ∨ m = 9 ∨ m = 11 then 30
  else 31

/-- Two-digit zero-padded decimal rendering, as a character list. -/
def pad2 (n : Nat) : List Char :=
  [Nat.digitChar (n / 10 % 10), Nat.digitChar (n % 10)]

/-- Four-digit zero-padded decimal rendering, as a character list. -/
def pad4 (n : Nat) : List Char :=
  [Nat.digitChar (n / 1000 % 10), Nat.digitChar (n / 100 % 10),
   Nat.digitChar (n / 10 % 10), Nat.digitChar (n % 10)]

/-- Python `datetime.isoformat()` for whole-second timestamps:
`YYYY-MM-DDTHH:MM:SS`. -/
def isoDT (t : DateTime) : String :=
  String.mk (pad4 t.year ++ ['-'] ++ pad2 t.month ++ ['-'] ++ pad2 t.day ++
    ['T'] ++ pad2 t.hour ++ [':'] ++ pad2 t.minute ++ [':'] ++ pad2 t.second)

/-- Python `datetime.strptime(s, "%Y/%m/%d")`: the format regex demands a
four-digit year and one-or-two-digit month and day separated by slashes,
consuming the whole string, and the resulting date must be a valid
calendar date with year at least 1 (otherwise `ValueError`). Returns the
midnight timestamp on success, `none` where Python raises `ValueError`. -/
def parseYmdSlash (s : String) : Option DateTime :=
  match splitOnChar '/' s.data with
  | [a, b, c] =>
    let y := digitsVal a
    let m := digitsVal b
    let d := digitsVal c
    if a.length = 4 ∧ a.all Char.isDigit = true ∧
       1 ≤ b.length ∧ b.length ≤ 2 ∧ b.all Char.isDigit = true ∧
       1 ≤ c.length ∧ c.length ≤ 2 ∧ c.all Char.isDigit = true ∧
       1 ≤ y ∧ 1 ≤ m ∧ m ≤ 12 ∧ 1 ≤ d ∧ d ≤ daysInMonth y m then
      some ⟨y, m, d, 0, 0, 0⟩
    else none
  | _ => none

/-- Key test of `PatchEngine.fix_dates`: `"date" in key or key == "maturity"`. -/
def dateKeyName (k : String) : Bool :=
  containsSub k "date" || k == "maturity"

/-- Character class `[kKmM]` of the magnitude-suffix regex. -/
def isSuffixChar (c : Char) : Bool :=
  c == 'k' || c == 'K' || c == 'm' || c == 'M'

/-- Deterministic automaton for the regex core `\d+(\.\d+)?[kKmM]`
anchored on both sides. State 1: expecting the first integer digit.
State 2: inside integer digits. State 3: expecting the first fraction
digit. State 4: inside fraction digits. Acceptance happens exactly when
a suffix character is the final character. -/
def patAux (st : Nat) : List Char → Bool
  | [] => false
  | c :: cs =>
    match st with
    | 1 => c.isDigit && patAux 2 cs
    | 2 =>
      if c.isDigit then patAux 2 cs
      else if c = '.' then patAux 3 cs
      else isSuffixChar c && cs.isEmpty
    | 3 => c.isDigit && patAux 4 cs
    | 4 =>
      if c.isDigit then patAux 4 cs
      else isSuffixChar c && cs.isEmpty
    | _ => false

/-- Python `re.match(r"^\d+(\.\d+)?[kKmM]$", s)`: the core pattern must
match the whole string, except that `$` also matches just before a single
trailing newline. -/
def numPatMatch (s : String) : Bool :=
  patAux 1 s.data ||
    (s.data.getLast? == some '\n' && patAux 1 s.data.dropLast)

/-- Python `float(t)` restricted to the strings this program feeds it:
an optional-fraction decimal literal `digits[.digits]` parses exactly;
everything else raises (`none`). -/
def parseDec (cs : List Char) : Option ℚ :=
  let intPart := cs.takeWhile Char.isDigit
  let rest := cs.dropWhile Char.isDigit
  if intPart = [] then none
  else
    match rest with
    | [] => some ((digitsVal intPart : ℚ))
    | '.' :: frac =>
      if frac ≠ [] ∧ frac.all Char.isDigit = true then
        some ((digitsVal intPart : ℚ) + (digitsVal frac : ℚ) / (10 : ℚ) ^ frac.length)
      else none
    | _ => none

/-- Multiplier chosen by `fix_numbers`: 1000 when the lowercased value
ends in `k`, else 1000000. -/
def multiplierOf (s : String) : ℚ :=
  if (pyLower s).data.getLast? == some 'k' then 1000 else 1000000

/-- One entry of `PatchEngine.fix_dates`: for a date-named key holding a
string containing a slash, try `strptime` and rewrite to `isoformat`;
`ValueError` is caught, leaving the value untouched. -/
def fixDateVal (k : String) (v : Value) : Value :=
  match v with
  | .str s =>
    if dateKeyName k && s.data.contains '/' then
      match parseYmdSlash s with
      | some dt => .str (isoDT dt)
      | none => .str s
    else .str s
  | v => v

/-- One entry of `PatchEngine.fix_numbers`: when the regex matches, the
last character is stripped, the remainder goes through `float` (which
raises on the trailing-newline matches) and is scaled by the suffix
multiplier. -/
def fixNumVal (v : Value) : Except String Value :=
  match v with
  | .str s =>
    if numPatMatch s then
      match parseDec s.data.dropLast with
      | some q => .ok (.num (q * multiplierOf s))
      | none => .error ("could not convert string to float: " ++ String.mk s.data.dropLast)
    else .ok (.str s)
  | v => .ok v

/-- One entry of `PatchEngine.fix_uppercase`: the `asset_id` field, when
a string that is not already `isupper`, is uppercased. -/
def fixUpVal (k : String) (v : Value) : Value :=
  if k == "asset_id" then
    match v with
    | .str s => if pyIsUpper s then .str s else .str (pyUpper s)
    | v => v
  else v

/-- Effectful map over a list, stopping at the first error, as a Python
loop that can raise mid-iteration. -/
def exMapM (f : α → Except ε β) : List α → Except ε (List β)
  | [] => .ok []
  | a :: as =>
    match f a with
    | .error e => .error e
    | .ok b =>
      match exMapM f as with
      | .error e => .error e
      | .ok bs => .ok (b :: bs)

namespace PatchEngine

/-- Heuristic 1 of `PatchEngine`: slash-date normalization over every entry. -/
def fix_dates (d : Dict) : Dict :=
  d.map (fun p => (p.1, fixDateVal p.1 p.2))

/-- Heuristic 2 of `PatchEngine`: magnitude-suffix normalization over every
entry; an uncaught `ValueError` aborts the traversal. -/
def fix_numbers (d : Dict) : Except String Dict :=
  exMapM (fun p => (fixNumVal p.2).map (fun w => (p.1, w))) d

/-- Heuristic 3 of `PatchEngine`: uppercase the `asset_id` field. -/
def fix_uppercase (d : Dict) : Dict :=
  d.map (fun p => (p.1, fixUpVal p.1 p.2))

/-- The full ordered patch pipeline `run`: dates, then numbers, then casing. -/
def run (d : Dict) : Except String Dict :=
  (fix_numbers (fix_dates d)).map fix_uppercase

end PatchEngine

/-- UTF-8 encoding of one character, as `str.encode("utf-8")` produces it. -/
def utf8Char (c : Char) : List Nat :=
  let n := c.toNat
  if n < 128 then [n]
  else if n < 2048 then [192 + n / 64, 128 + n % 64]
  else if n < 65536 then [224 + n / 4096, 128 + (n / 64) % 64, 128 + n % 64]
  else [240 + n / 262144, 128 + (n / 4096) % 64, 128 + (n / 64) % 64, 128 + n % 64]

/-- UTF-8 byte sequence of a string. -/
def utf8Bytes (s : String) : List Nat :=
  s.data.foldr (fun c acc => utf8Char c ++ acc) []

/-- Right rotation of a 32-bit word. -/
def rotr32 (n x : Nat) : Nat :=
  ((x >>> n) ||| (x <<< (32 - n))) % 4294967296

/-- SHA-256 round constants. -/
def sha256K : List Nat :=
  [1116352408, 1899447441, 3049323471, 3921009573, 961987163,
   1508970993, 2453635748, 2870763221, 3624381080, 310598401,
   607225278, 1426881987, 1925078388, 2162078206, 2614888103,
   3248222580, 3835390401, 4022224774, 264347078, 604807628,
   770255983, 1249150122, 1555081692, 1996064986, 2554220882,
   2821834349, 2952996808, 3210313671, 3336571891, 3584528711,
   113926993, 338241895, 666307205, 773529912, 1294757372,
   1396182291, 1695183700, 1986661051, 2177026350, 2456956037,
   2730485921, 2820302411, 3259730800, 3345764771, 3516065817,
   3600352804, 4094571909, 275423344, 430227734, 506948616,
   659060556, 883997877, 958139571, 1322822218, 1537002063,
   1747873779, 1955562222, 2024104815, 2227730452, 2361852424,
   2428436474, 2756734187, 3204031479, 3329325298]

/-- SHA-256 initial hash state. -/
def sha256H0 : List Nat :=
  [1779033703, 3144134277, 1013904242, 2773480762, 1359893119,
   2600822924, 528734635, 1541459225]

/-- SHA-256 message padding: `0x80`, zeros to 56 mod 64, then the bit
length as a big-endian 64-bit integer. -/
def sha256Pad (msg : List Nat) : List Nat :=
  let L := msg.length
  let zeros := (119 - L % 64) % 64
  msg ++ [128] ++ List.replicate zeros 0 ++
    (List.range 8).map (fun i => (8 * L) >>> (8 * (7 - i)) % 256)

/-- Group a byte list into 32-bit big-endian words. -/
def bytesToWords : List Nat → List Nat
  | b0 :: b1 :: b2 :: b3 :: rest =>
    (b0 * 16777216 + b1 * 65536 + b2 * 256 + b3) :: bytesToWords rest
  | _ => []

/-- Extend sixteen message-schedule words to sixty-four. -/
def sha256Extend (w : List Nat) : Nat → List Nat
  | 0 => w
  | n + 1 =>
    let i := w.length
    let w15 := w.getD (i - 15) 0
    let w2 := w.getD (i - 2) 0
    let s0 := (rotr32 7 w15) ^^^ (rotr32 18 w15) ^^^ (w15 >>> 3)
    let s1 := (rotr32 17 w2) ^^^ (rotr32 19 w2) ^^^ (w2 >>> 10)
    sha256Extend (w ++ [(w.getD (i - 16) 0 + s0 + w.getD (i - 7) 0 + s1) % 4294967296]) n

/-- One SHA-256 compression round. -/
def sha256Round (st : List Nat) (kw : Nat × Nat) : List Nat :=
  match st with
  | [a, b, c, d, e, f, g, h] =>
    let S1 := (rotr32 6 e) ^^^ (rotr32 11 e) ^^^ (rotr32 25 e)
    let ch := (e &&& f) ^^^ ((4294967295 - e) &&& g)
    let t1 := (h + S1 + ch + kw.1 + kw.2) % 4294967296
    let S0 := (rotr32 2 a) ^^^ (rotr32 13 a) ^^^ (rotr32 22 a)
    let mj := (a &&& b) ^^^ (a &&& c) ^^^ (b &&& c)
    let t2 := (S0 + mj) % 4294967296
    [(t1 + t2) % 4294967296, a, b, c, (d + t1) % 4294967296, e, f, g]
  | st => st

/-- Process one 64-byte block into the running hash state. -/
def sha256Block (h : List Nat) (block : List Nat) : List Nat :=
  let w := sha256Extend (bytesToWords block) 48
  let st := (sha256K.zip w).foldl (fun s kw => sha256Round s (kw.1, kw.2)) h
  (h.zip st).map (fun p => (p.1 + p.2) % 4294967296)

/-- Split a padded message into 64-byte blocks. -/
def chunks64 (l : List Nat) : List (List Nat) :=
  if h : l.length < 64 ∨ l = [] then (if l = [] then [] else [l])
  else
    have : l.length - 64 < l.length := by
      rcases Nat.lt_or_ge l.length 64 with hl | hl
      · exact absurd (Or.inl hl) h
      · have : 0 < l.length := lt_of_lt_of_le (by norm_num) hl
        omega
    l.take 64 :: chunks64 (l.drop 64)
termination_by l.length
decreasing_by simpa using this

/-- Lowercase hexadecimal rendering of a 32-bit word, eight digits. -/
def wordHex (n : Nat) : List Char :=
  (List.range 8).map (fun i => Nat.digitChar (n >>> (4 * (7 - i)) % 16))

/-- SHA-256 of a byte sequence, rendered as `hashlib`'s lowercase
64-character `hexdigest`. -/
def sha256hex (msg : List Nat) : String :=
  let final := (chunks64 (sha256Pad msg)).foldl sha256Block sha256H0
  String.mk (final.foldr (fun w acc => wordHex w ++ acc) [])

/-- JSON string escaping as `json.dumps` performs it with the default
`ensure_ascii=True`: quote, backslash, named control escapes, `\uXXXX`
for other control and all non-ASCII characters (astral characters as
surrogate pairs). -/
def escapeJsonChar (c : Char) : List Char :=
  let n := c.toNat
  if c = '"' then ['\\', '"']
  else if c = '\\' then ['\\', '\\']
  else if c = '\n' then ['\\', 'n']
  else if c = '\r' then ['\\', 'r']
  else if c = '\t' then ['\\', 't']
  else if n = 8 then ['\\', 'b']
  else if n = 12 then ['\\', 'f']
  else if n < 32 ∨ n > 126 then
    if n < 65536 then
      ['\\', 'u'] ++ (List.range 4).map (fun i => Nat.digitChar (n >>> (4 * (3 - i)) % 16))
    else
      let m := n - 65536
      let hi := 55296 + m / 1024
      let lo := 56320 + m % 1024
      ['\\', 'u'] ++ (List.range 4).map (fun i => Nat.digitChar (hi >>> (4 * (3 - i)) % 16)) ++
      ['\\', 'u'] ++ (List.range 4).map (fun i => Nat.digitChar (lo >>> (4 * (3 - i)) % 16))
  else [c]

/-- JSON rendering of a string literal. -/
def renderJsonString (s : String) : String :=
  String.mk ('"' :: s.data.foldr (fun c acc => escapeJsonChar c ++ acc) ['"'])

/-- JSON rendering of a value, as `json.dumps` renders the values this
program serializes. Integral numbers render as Python float `repr`
(`5000000.0`); non-integral rationals render with their exact decimal
expansion where finite behaviour matters is not exercised and a plain
fraction rendering is used. -/
def renderValue : Value → String
  | .str s => renderJsonString s
  | .num q => if q.den = 1 then toString q.num ++ ".0" else toString q.num ++ "/" ++ toString q.den
  | .bool b => cond b "true" "false"
  | .null => "null"
  | .arr vs => "[" ++ String.intercalate ", " (vs.attach.map (fun v => renderValue v.1)) ++ "]"
termination_by v => sizeOf v
decreasing_by
  have h := List.sizeOf_lt_of_mem v.2
  simp only [Value.arr.sizeOf_spec]
  omega

/-- Entries sorted by key, as `json.dumps(..., sort_keys=True)` orders them. -/
def sortEntries (d : Dict) : Dict :=
  d.mergeSort (fun a b => a.1 ≤ b.1)

/-- The canonical serialization hashed by `generate_trace_id`:
`json.dumps(data, sort_keys=True)` with default separators. -/
def canonical_json (d : Dict) : String :=
  "\x7b" ++ String.intercalate ", "
    ((sortEntries d).map (fun p => renderJsonString p.1 ++ ": " ++ renderValue p.2)) ++ "\x7d"

/-- The function `generate_trace_id` of the source: SHA-256 hexdigest of
the UTF-8 bytes of the canonicalized JSON string. -/
def generate_trace_id (d : Dict) : String :=
  sha256hex (utf8Bytes (canonical_json d))

/-- A violation as pydantic reports it: offending field and message. -/
abbrev Violation := String × String

/-- Parser for the ISO-8601 timestamp strings pydantic accepts for a
`datetime` field, restricted to the forms this program produces and the
claims exercise: `YYYY-MM-DD` (midnight) and `YYYY-MM-DDTHH:MM:SS`.
Range checks mirror `datetime` construction. -/
def parseIsoDateTime (s : String) : Option DateTime :=
  match s.data with
  | [y1, y2, y3, y4, '-', m1, m2, '-', d1, d2] =>
    let y := digitsVal [y1, y2, y3, y4]
    let m := digitsVal [m1, m2]
    let d := digitsVal [d1, d2]
    if ([y1, y2, y3, y4, m1, m2, d1, d2].all Char.isDigit) = true ∧
       1 ≤ y ∧ 1 ≤ m ∧ m ≤ 12 ∧ 1 ≤ d ∧ d ≤ daysInMonth y m then
      some ⟨y, m, d, 0, 0, 0⟩
    else none
  | [y1, y2, y3, y4, '-', m1, m2, '-', d1, d2, 'T', h1, h2, ':', n1, n2, ':', s1, s2] =>
    let y := digitsVal [y1, y2, y3, y4]
    let m := digitsVal [m1, m2]
    let d := digitsVal [d1, d2]
    let hh := digitsVal [h1, h2]
    let mi := digitsVal [n1, n2]
    let ss := digitsVal [s1, s2]
    if ([y1, y2, y3, y4, m1, m2, d1, d2, h1, h2, n1, n2, s1, s2].all Char.isDigit) = true ∧
       1 ≤ y ∧ 1 ≤ m ∧ m ≤ 12 ∧ 1 ≤ d ∧ d ≤ daysInMonth y m ∧
       hh ≤ 23 ∧ mi ≤ 59 ∧ ss ≤ 59 then
      some ⟨y, m, d, hh, mi, ss⟩
    else none
  | _ => none

/-- The validated asset record, fields as declared on the pydantic model. -/
structure FinancialAsset where
  asset_id : String
  asset_type : String
  issuer_name : String
  price : ℚ
  currency : String
  maturity_date : Option DateTime
  required_docs : List String

namespace FinancialAsset

/-- Field validation for `asset_id`: required string, `min_length=5`,
then the `enforce_uppercase` validator. -/
def checkAssetId (raw : Dict) : Except Violation String :=
  match raw.lookup "asset_id" with
  | none => .error ("asset_id", "Field required")
  | some (.str s) =>
    if s.length < 5 then .error ("asset_id", "String should have at least 5 characters")
    else if pyIsUpper s then .ok s
    else .error ("asset_id", "Value error, Asset ID must be uppercase")
  | some _ => .error ("asset_id", "Input should be a valid string")

/-- Field validation for `asset_type`: required string matching the
anchored alternation `^(Stock|Bond|Derivative|FX)$`. -/
def checkAssetType (raw : Dict) : Except Violation String :=
  match raw.lookup "asset_type" with
  | none => .error ("asset_type", "Field required")
  | some (.str s) =>
    if s = "Stock" ∨ s = "Bond" ∨ s = "Derivative" ∨ s = "FX" then .ok s
    else .error ("asset_type", "String should match pattern")
  | some _ => .error ("asset_type", "Input should be a valid string")

/-- Field validation for `issuer_name`: required string, `min_length=5`. -/
def checkIssuerName (raw : Dict) : Except Violation String :=
  match raw.lookup "issuer_name" with
  | none => .error ("issuer_name", "Field required")
  | some (.str s) =>
    if s.length < 5 then .error ("issuer_name", "String should have at least 5 characters")
    else .ok s
  | some _ => .error ("issuer_name", "Input should be a valid string")

/-- Field validation for `price`: required number, `gt=0`. Numeric
strings are not modelled; the claims only exercise numeric inputs. -/
def checkPrice (raw : Dict) : Except Violation ℚ :=
  match raw.lookup "price" with
  | none => .error ("price", "Field required")
  | some (.num q) =>
    if 0 < q then .ok q else .error ("price", "Input should be greater than 0")
  | some _ => .error ("price", "Input should be a valid number")

/-- Field validation for `currency`: optional with default `"USD"`
(defaults are not validated), `min_length=3`, `max_length=3`. -/
def checkCurrency (raw : Dict) : Except Violation String :=
  match raw.lookup "currency" with
  | none => .ok "USD"
  | some (.str s) =>
    if s.length < 3 then .error ("currency", "String should have at least 3 characters")
    else if 3 < s.length then .error ("currency", "String should have at most 3 characters")
    else .ok s
  | some _ => .error ("currency", "Input should be a valid string")

/-- Field validation for `maturity_date`: optional datetime, absent or
null gives `None`; strings must parse as ISO timestamps. -/
def checkMaturity (raw : Dict) : Except Violation (Option DateTime) :=
  match raw.lookup "maturity_date" with
  | none => .ok none
  | some .null => .ok none
  | some (.str s) =>
    match parseIsoDateTime s with
    | some dt => .ok (some dt)
    | none => .error ("maturity_date", "Input should be a valid datetime")
  | some _ => .error ("maturity_date", "Input should be a valid datetime")

/-- Field validation for `required_docs`: optional list of strings with
default `[]`. -/
def checkDocs (raw : Dict) : Except Violation (List String) :=
  match raw.lookup "required_docs" with
  | none => .ok []
  | some (.arr vs) =>
    match exMapM (fun v => match v with
      | Value.str s => Except.ok s
      | _ => Except.error (("required_docs", "Input should be a valid string") : Violation)) vs with
    | .ok ss => .ok ss
    | .error e => .error e
  | some _ => .error ("required_docs", "Input should be a valid list")

/-- Violations of one field check, empty when the check passes. -/
def errList {α : Type} (r : Except Violation α) : List Violation :=
  match r with
  | .ok _ => []
  | .error v => [v]

/-- All violations of a raw mapping, in pydantic's field order. -/
def errsOf (raw : Dict) : List Violation :=
  errList (checkAssetId raw) ++ errList (checkAssetType raw) ++
  errList (checkIssuerName raw) ++ errList (checkPrice raw) ++
  errList (checkCurrency raw) ++ errList (checkMaturity raw) ++
  errList (checkDocs raw)

/-- Construction `FinancialAsset(**raw)`: every field is validated,
and on any failure a `ValidationError` carrying all field violations is
raised. Extra keys are ignored (pydantic default). -/
def validate (raw : Dict) : Except (List Violation) FinancialAsset :=
  match checkAssetId raw, checkAssetType raw, checkIssuerName raw, checkPrice raw,
        checkCurrency raw, checkMaturity raw, checkDocs raw with
  | .ok a, .ok t, .ok i, .ok p, .ok c, .ok m, .ok ds => .ok ⟨a, t, i, p, c, m, ds⟩
  | _, _, _, _, _, _, _ => .error (errsOf raw)

/-- Serialization `model_dump(mode='json')`: fields in declaration
order, the optional timestamp as an ISO string or null. -/
def model_dump (a : FinancialAsset) : Dict :=
  [("asset_id", Value.str a.asset_id),
   ("asset_type", Value.str a.asset_type),
   ("issuer_name", Value.str a.issuer_name),
   ("price", Value.num a.price),
   ("currency", Value.str a.currency),
   ("maturity_date", match a.maturity_date with
     | some dt => Value.str (isoDT dt)
     | none => Value.null),
   ("required_docs", Value.arr (a.required_docs.map Value.str))]

end FinancialAsset

/-- Modelled from the spec: `PolicyRules` does not appear in
`src/main.py`; the spec describes it as process-wide state holding the
allowed-currency set, read afresh by every validation call. -/
structure PolicyRules where
  allowed_currencies : List String

/-- The currency code a raw mapping carries into validation: the string
under `"currency"`, or the schema default `"USD"` when absent. -/
def currencyOf (raw : Dict) : Option String :=
  match raw.lookup "currency" with
  | none => some "USD"
  | some (.str s) => some s
  | some _ => none

/-- Modelled from the spec: the policy membership half of the currency
rule ("a member of PolicyRules' current allowed-currency set"), which is
absent from `src/main.py`. A failing membership check contributes a
violation naming the rejected code. -/
def policyErrs (raw : Dict) (P : PolicyRules) : List Violation :=
  match currencyOf raw with
  | some c =>
    if P.allowed_currencies.contains c then []
    else [("currency", "Currency " ++ c ++ " is not in the allowed-currency set")]
  | none => []

/-- Modelled from the spec: validation against the current `PolicyRules`
snapshot combines the schema checks of `FinancialAsset` with the
dynamic allowed-currency membership check, collecting all violations. -/
def validate_with_policy (raw : Dict) (P : PolicyRules) :
    Except (List Violation) FinancialAsset :=
  match FinancialAsset.validate raw, policyErrs raw P with
  | .ok a, [] => .ok a
  | .ok _, es => .error es
  | .error bs, es => .error (bs ++ es)

/-- Modelled from the spec: the outcome status recorded for a (replay)
validation run, `SUCCESS` or `FAILED` with the violation list. -/
def replayOutcome (raw : Dict) (P : PolicyRules) : String × List Violation :=
  match validate_with_policy raw P with
  | .ok _ => ("SUCCESS", [])
  | .error es => ("FAILED", es)

/-- State of the ledger backing file: absent, unparseable, or a parsed
JSON array of entries. -/
inductive Store (α : Type) where
  | missing
  | corrupt
  | ok (entries : List α)

/-- The function `append_to_ledger` of the source: a missing file is
initialized to an empty array, an unparseable file is read as an empty
array (`JSONDecodeError` handler), then the entry is appended and the
whole array rewritten. -/
def append_to_ledger {α : Type} (st : Store α) (r : α) : Store α :=
  match st with
  | .missing => .ok [r]
  | .corrupt => .ok [r]
  | .ok es => .ok (es ++ [r])

/-- Reading the ledger back, oldest first; absent and unparseable
stores read as empty. -/
def readLedger {α : Type} (st : Store α) : List α :=
  match st with
  | .ok es => es
  | _ => []

/-- The certified record assembled by `build` after validation succeeds. -/
structure CertRecord where
  trace_id : String
  timestamp : String
  status : String
  method : String
  data : Dict

/-- Outcome of one `build` invocation: a certified record, a rejection
with the reported violations (`typer.Exit(code=1)` paths), or an
uncaught patching exception. -/
inductive BuildResult where
  | certified (r : CertRecord)
  | rejected (es : List Violation)
  | patchCrash (msg : String)

/-- Certification step of `build`: dump the validated asset, hash it,
and stamp status and method; `method` is `AUTO_PATCHED` exactly when the
`--fix` flag was passed. -/
def certify (a : FinancialAsset) (fix : Bool) (ts : String) : CertRecord :=
  let fd := a.model_dump
  ⟨generate_trace_id fd, ts ++ "Z", "VALIDATED",
    if fix then "AUTO_PATCHED" else "DIRECT", fd⟩

/-- The `build` command core (file loading and rendering stripped):
validate; on failure without `--fix`, exit with the violations; with
`--fix`, patch and re-validate once; certification appends to the
ledger, rejection leaves the ledger untouched. The wall-clock timestamp
is passed in as a parameter. -/
def build (fix : Bool) (raw : Dict) (ts : String) (st : Store CertRecord) :
    BuildResult × Store CertRecord :=
  match FinancialAsset.validate raw with
  | .ok a =>
    let r := certify a fix ts
    (.certified r, append_to_ledger st r)
  | .error es =>
    if fix then
      match PatchEngine.run raw with
      | .error m => (.patchCrash m, st)
      | .ok pd =>
        match FinancialAsset.validate pd with
        | .ok a =>
          let r := certify a fix ts
          (.certified r, append_to_ledger st r)
        | .error es2 => (.rejected es2, st)
    else (.rejected es, st)

/-- Composite per-entry action of one full `PatchEngine.run` pass. -/
def patchEntry (p : String × Value) : Except String (String × Value) :=
  (fixNumVal (fixDateVal p.1 p.2)).map (fun w => (p.1, fixUpVal p.1 w))

/-- Shape check for an ISO-8601 second-precision timestamp string
`YYYY-MM-DDTHH:MM:SS`, independent of the renderer. -/
def isIso8601DateTime (s : String) : Bool :=
  match s.data with
  | [y1, y2, y3, y4, c1, m1, m2, c2, d1, d2, c3, h1, h2, c4, n1, n2, c5, s1, s2] =>
    ([y1, y2, y3, y4, m1, m2, d1, d2, h1, h2, n1, n2, s1, s2].all Char.isDigit) &&
      c1 == '-' && c2 == '-' && c3 == 'T' && c4 == ':' && c5 == ':'
  | _ => false

/-- Scenario A raw input of the spec. -/
def scenarioA : Dict :=
  [("currency", Value.str "usd "), ("face_value", Value.str "5M"),
   ("maturity_date", Value.str "2030/01/01"), ("isin", Value.str "US1234567890"),
   ("issuer", Value.str "Global Corp")]

/-- What `PatchEngine.run` actually produces on the Scenario A input. -/
def scenarioAPatched : Dict :=
  [("currency", Value.str "usd "), ("face_value", Value.num 5000000),
   ("maturity_date", Value.str "2030-01-01T00:00:00"), ("isin", Value.str "US1234567890"),
   ("issuer", Value.str "Global Corp")]

/-- Scenario C style raw input: otherwise valid but with no issuer field. -/
def rawMissingIssuer : Dict :=
  [("asset_id", Value.str "ABC123"), ("asset_type", Value.str "Bond"),
   ("price", Value.num 100)]

/-- A raw input that is valid on the first pass and carries currency GBP. -/
def rawValidGBP : Dict :=
  [("asset_id", Value.str "ABC123"), ("asset_type", Value.str "Bond"),
   ("issuer_name", Value.str "Global Corp"), ("price", Value.num 100),
   ("currency", Value.str "GBP"), ("maturity_date", Value.str "2030-01-01T00:00:00")]

/-- The validated asset produced from `rawValidGBP`. -/
def exAsset : FinancialAsset :=
  ⟨"ABC123", "Bond", "Global Corp", 100, "GBP", some ⟨2030, 1, 1, 0, 0, 0⟩, []⟩

/-- A raw input satisfying every constraint except that it has no currency key. -/
def rawMissingCurrency : Dict :=
  [("asset_id", Value.str "XBOND9"), ("asset_type", Value.str "Stock"),
   ("issuer_name", Value.str "Acme Industrial"), ("price", Value.num 5)]

/-- Scenario B initial policy snapshot. -/
def policyOld : PolicyRules := ⟨["USD", "EUR", "GBP", "NGN"]⟩

/-- Scenario B narrowed policy snapshot. -/
def policyNew : PolicyRules := ⟨["USD", "EUR", "NGN"]⟩

/-- A two-entry record, and the same logical record with its key order flipped. -/
def permDict1 : Dict := [("price", Value.num 100), ("asset_id", Value.str "ABC123")]

/-- Key-order permutation of `permDict1`. -/
def permDict2 : Dict := [("asset_id", Value.str "ABC123"), ("price", Value.num 100)]

/-! Helper lemmas: ASCII case mapping. -/

theorem toNat_ofNatAux (n : Nat) (h : n.isValidChar) : (Char.ofNatAux n h).toNat = n := by
  simp [Char.ofNatAux, Char.toNat, UInt32.toNat]

theorem char_eq_iff (a b : Char) : a = b ↔ a.toNat = b.toNat := by
  constructor
  · intro h; rw [h]
  · intro h; exact Char.eq_of_val_eq (UInt32.ext h)

theorem isDigit_eq_toNat (c : Char) : c.isDigit = (48 ≤ c.toNat && c.toNat ≤ 57) := by
  simp only [Char.isDigit, Char.toNat, Bool.and_eq_true, decide_eq_decide]
  rfl

theorem pyUpperChar_toNat (c : Char) :
    (pyUpperChar c).toNat = if 97 ≤ c.toNat ∧ c.toNat ≤ 122 then c.toNat - 32 else c.toNat := by
  unfold pyUpperChar
  split
  · next h =>
    have hv : (c.toNat - 32).isValidChar := Or.inl (by omega)
    rw [Char.ofNat, dif_pos hv]
    simp [toNat_ofNatAux, h]
  · next h => simp [h]

theorem pyUpperChar_isDigit (c : Char) : (pyUpperChar c).isDigit = c.isDigit := by
  rw [isDigit_eq_toNat, isDigit_eq_toNat, pyUpperChar_toNat]
  apply Bool.eq_iff_iff.mpr
  simp only [Bool.and_eq_true, decide_eq_true_eq]
  split <;> omega

theorem pyUpperChar_eq_dot (c : Char) : pyUpperChar c = '.' ↔ c = '.' := by
  rw [char_eq_iff, char_eq_iff, pyUpperChar_toNat]
  have h1 : ('.' : Char).toNat = 46 := rfl
  rw [h1]
  split <;> omega

theorem pyUpperChar_eq_nl (c : Char) : pyUpperChar c = '\n' ↔ c = '\n' := by
  rw [char_eq_iff, char_eq_iff, pyUpperChar_toNat]
  have h1 : ('\n' : Char).toNat = 10 := rfl
  rw [h1]
  split <;> omega

theorem pyUpperChar_suffix (c : Char) : isSuffixChar (pyUpperChar c) = isSuffixChar c := by
  unfold isSuffixChar
  apply Bool.eq_iff_iff.mpr
  simp only [Bool.or_eq_true, beq_iff_eq, char_eq_iff, pyUpperChar_toNat]
  have h1 : ('k' : Char).toNat = 107 := rfl
  have h2 : ('K' : Char).toNat = 75 := rfl
  have h3 : ('m' : Char).toNat = 109 := rfl
  have h4 : ('M' : Char).toNat = 77 := rfl
  rw [h1, h2, h3, h4]
  split <;> omega

theorem pyUpperChar_idem (c : Char) : pyUpperChar (pyUpperChar c) = pyUpperChar c := by
  rw [char_eq_iff, pyUpperChar_toNat, pyUpperChar_toNat]
  split_ifs <;> omega

theorem pyUpper_data (s : String) : (pyUpper s).data = s.data.map pyUpperChar := rfl

theorem pyUpper_idem (s : String) : pyUpper (pyUpper s) = pyUpper s := by
  have h1 : pyUpper (pyUpper s) = String.mk ((s.data.map pyUpperChar).map pyUpperChar) := rfl
  rw [h1, List.map_map]
  exact congrArg String.mk (List.map_congr_left (fun a _ => pyUpperChar_idem a))

/-! Helper lemmas: the magnitude-suffix pattern. -/

theorem dropLast_map_comm (f : α → β) (l : List α) :
    (l.map f).dropLast = l.dropLast.map f := by
  induction l with
  | nil => rfl
  | cons a l ih =>
    cases l with
    | nil => rfl
    | cons b l =>
      simp only [List.map_cons, List.dropLast_cons₂]
      exact congrArg _ ih

theorem isEmpty_map_comm (f : α → β) (l : List α) : (l.map f).isEmpty = l.isEmpty := by
  cases l <;> rfl

theorem patAux_map_pyUpper (cs : List Char) : ∀ st, patAux st (cs.map pyUpperChar) = patAux st cs := by
  induction cs with
  | nil => intro st; rfl
  | cons c cs ih =>
    intro st
    rcases st with _ | _ | _ | _ | _ | n
    · rfl
    · simp only [List.map_cons, patAux, pyUpperChar_isDigit, ih]
    · simp only [List.map_cons, patAux, pyUpperChar_isDigit, pyUpperChar_eq_dot,
        pyUpperChar_suffix, isEmpty_map_comm, ih]
    · simp only [List.map_cons, patAux, pyUpperChar_isDigit, ih]
    · simp only [List.map_cons, patAux, pyUpperChar_isDigit,
        pyUpperChar_suffix, isEmpty_map_comm, ih]
    · rfl

theorem numPatMatch_pyUpper (s : String) : numPatMatch (pyUpper s) = numPatMatch s := by
  unfold numPatMatch
  rw [pyUpper_data, patAux_map_pyUpper, List.getLast?_map, dropLast_map_comm, patAux_map_pyUpper]
  congr 1
  cases h : s.data.getLast? with
  | none => rfl
  | some c =>
    show ((some (pyUpperChar c) == some '\n') && _) = ((some c == some '\n') && _)
    apply Bool.eq_iff_iff.mpr
    simp only [Bool.and_eq_true, beq_iff_eq, Option.some_inj, pyUpperChar_eq_nl, and_congr_left_iff]

theorem patAux_last_suffix (cs : List Char) :
    ∀ st, patAux st cs = true → ∃ c, cs.getLast? = some c ∧ isSuffixChar c = true := by
  induction cs with
  | nil => intro st h; cases h
  | cons c cs ih =>
    intro st h
    have hlast : ∀ c', cs.getLast? = some c' → (c :: cs).getLast? = some c' := by
      intro c' hc'
      have : (c :: cs) = [c] ++ cs := rfl
      rw [this, List.getLast?_append, hc', Option.or_some]
    rcases st with _ | _ | _ | _ | _ | n
    · cases h
    · rw [patAux, Bool.and_eq_true] at h
      obtain ⟨c', hc', hs⟩ := ih 2 h.2
      exact ⟨c', hlast c' hc', hs⟩
    · rw [patAux] at h
      split at h
      · obtain ⟨c', hc', hs⟩ := ih 2 h
        exact ⟨c', hlast c' hc', hs⟩
      · split at h
        · obtain ⟨c', hc', hs⟩ := ih 3 h
          exact ⟨c', hlast c' hc', hs⟩
        · rw [Bool.and_eq_true, List.isEmpty_iff] at h
          exact ⟨c, by rw [h.2]; rfl, h.1⟩
    · rw [patAux, Bool.and_eq_true] at h
      obtain ⟨c', hc', hs⟩ := ih 4 h.2
      exact ⟨c', hlast c' hc', hs⟩
    · rw [patAux] at h
      split at h
      · obtain ⟨c', hc', hs⟩ := ih 4 h
        exact ⟨c', hlast c' hc', hs⟩
      · rw [Bool.and_eq_true, List.isEmpty_iff] at h
        exact ⟨c, by rw [h.2]; rfl, h.1⟩
    · cases h

/-! Helper lemmas: the ISO rendering is inert for every later heuristic. -/

theorem digitChar_props : ∀ m < 10, (Nat.digitChar m).isDigit = true ∧
    Nat.digitChar m ≠ '/' ∧ isSuffixChar (Nat.digitChar m) = false ∧
    Nat.digitChar m ≠ '\n' ∧ Nat.digitChar m ≠ '.' := by decide

theorem isoDT_data_eq (dt : DateTime) :
    (isoDT dt).data = pad4 dt.year ++ ['-'] ++ pad2 dt.month ++ ['-'] ++ pad2 dt.day ++
      ['T'] ++ pad2 dt.hour ++ [':'] ++ pad2 dt.minute ++ [':'] ++ pad2 dt.second := rfl

theorem isoDT_getLast (dt : DateTime) :
    (isoDT dt).data.getLast? = some (Nat.digitChar (dt.second % 10)) := by
  rw [isoDT_data_eq, List.getLast?_append]
  rfl

theorem slash_not_mem_isoDT (dt : DateTime) : '/' ∉ (isoDT dt).data := by
  rw [isoDT_data_eq]
  intro hm
  have hpad2 : ∀ n : Nat, '/' ∉ pad2 n := by
    intro n hn
    have h1 := (digitChar_props (n / 10 % 10) (Nat.mod_lt _ (by norm_num))).2.1
    have h2 := (digitChar_props (n % 10) (Nat.mod_lt _ (by norm_num))).2.1
    simp only [pad2, List.mem_cons, List.not_mem_nil, or_false] at hn
    rcases hn with h | h
    · exact h1 h.symm
    · exact h2 h.symm
  have hpad4 : ∀ n : Nat, '/' ∉ pad4 n := by
    intro n hn
    have h1 := (digitChar_props (n / 1000 % 10) (Nat.mod_lt _ (by norm_num))).2.1
    have h2 := (digitChar_props (n / 100 % 10) (Nat.mod_lt _ (by norm_num))).2.1
    have h3 := (digitChar_props (n / 10 % 10) (Nat.mod_lt _ (by norm_num))).2.1
    have h4 := (digitChar_props (n % 10) (Nat.mod_lt _ (by norm_num))).2.1
    simp only [pad4, List.mem_cons, List.not_mem_nil, or_false] at hn
    rcases hn with h | h | h | h
    · exact h1 h.symm
    · exact h2 h.symm
    · exact h3 h.symm
    · exact h4 h.symm
  simp only [List.mem_append, List.mem_singleton, or_assoc] at hm
  rcases hm with h | h | h | h | h | h | h | h | h | h | h
  · exact hpad4 _ h
  · exact absurd h (by decide)
  · exact hpad2 _ h
  · exact absurd h (by decide)
  · exact hpad2 _ h
  · exact absurd h (by decide)
  · exact hpad2 _ h
  · exact absurd h (by decide)
  · exact hpad2 _ h
  · exact absurd h (by decide)
  · exact hpad2 _ h

theorem isoDT_contains_slash_false (dt : DateTime) :
    (isoDT dt).data.contains '/' = false := by
  apply Bool.eq_false_iff.mpr
  intro hc
  exact slash_not_mem_isoDT dt (List.mem_of_elem_eq_true hc)

theorem isoDT_numPat_false (dt : DateTime) : numPatMatch (isoDT dt) = false := by
  have hd := digitChar_props (dt.second % 10) (Nat.mod_lt _ (by norm_num))
  apply Bool.eq_false_iff.mpr
  intro h
  rw [numPatMatch, Bool.or_eq_true] at h
  rcases h with h | h
  · obtain ⟨c, hc, hs⟩ := patAux_last_suffix _ 1 h
    rw [isoDT_getLast] at hc
    cases hc
    rw [hd.2.2.1] at hs
    cases hs
  · rw [Bool.and_eq_true, beq_iff_eq, isoDT_getLast] at h
    exact hd.2.2.2.1 (Option.some_inj.mp h.1)

/-! Helper lemmas: pointwise behaviour of the three heuristics. -/

theorem fixNumVal_not_match (s : String) (h : numPatMatch s = false) :
    fixNumVal (.str s) = .ok (.str s) := by
  simp [fixNumVal, h]

theorem fixNumVal_ok_str (u : Value) (t : String) (h : fixNumVal u = .ok (.str t)) :
    u = .str t ∧ numPatMatch t = false := by
  cases u with
  | str s =>
    rw [fixNumVal] at h
    by_cases hm : numPatMatch s = true
    · rw [if_pos hm] at h
      cases hp : parseDec s.data.dropLast with
      | none => rw [hp] at h; cases h
      | some q => rw [hp] at h; cases h
    · rw [if_neg hm] at h
      cases h
      exact ⟨rfl, Bool.eq_false_iff.mpr hm⟩
  | num q => cases h
  | bool b => cases h
  | null => cases h
  | arr vs => cases h

theorem fixDateVal_cases (k : String) (s : String) :
    fixDateVal k (.str s) = .str s ∨
      ∃ dt, parseYmdSlash s = some dt ∧ fixDateVal k (.str s) = .str (isoDT dt) := by
  rw [fixDateVal]
  split
  · cases hp : parseYmdSlash s with
    | some dt => exact Or.inr ⟨dt, rfl, rfl⟩
    | none => exact Or.inl rfl
  · exact Or.inl rfl

theorem fixDateVal_idem (k : String) (v : Value) :
    fixDateVal k (fixDateVal k v) = fixDateVal k v := by
  cases v with
  | str s =>
    rcases fixDateVal_cases k s with h | ⟨dt, hp, h⟩
    · rw [h]; exact h
    · rw [h]
      rw [fixDateVal, if_neg]
      rw [isoDT_contains_slash_false, Bool.and_false]
      exact Bool.false_ne_true
  | num q => rfl
  | bool b => rfl
  | null => rfl
  | arr vs => rfl

theorem exMapM_map (f : β → Except ε γ) (g : α → β) (l : List α) :
    exMapM f (l.map g) = exMapM (fun a => f (g a)) l := by
  induction l with
  | nil => rfl
  | cons a l ih => rw [List.map_cons, exMapM, exMapM, ih]

theorem exMapM_map_post (f : α → Except ε β) (u : β → γ) (l : List α) :
    (exMapM f l).map (List.map u) = exMapM (fun a => (f a).map u) l := by
  induction l with
  | nil => rfl
  | cons a l ih =>
    rw [exMapM, exMapM]
    cases h : f a with
    | error e => rfl
    | ok b =>
      cases h2 : exMapM f l with
      | error e2 =>
        rw [h2] at ih
        rw [← ih]
        rfl
      | ok bs =>
        rw [h2] at ih
        rw [← ih]
        rfl

theorem exMapM_ok_mem {f : α → Except ε β} :
    ∀ {l : List α} {l' : List β}, exMapM f l = .ok l' → ∀ b ∈ l', ∃ a ∈ l, f a = .ok b := by
  intro l
  induction l with
  | nil =>
    intro l' h b hb
    cases h
    cases hb
  | cons a as ih =>
    intro l' h b hb
    rw [exMapM] at h
    cases ha : f a with
    | error e => rw [ha] at h; cases h
    | ok w =>
      rw [ha] at h
      cases hrest : exMapM f as with
      | error e => rw [hrest] at h; cases h
      | ok ws =>
        rw [hrest] at h
        cases h
        rcases List.mem_cons.mp hb with hbw | hbm
        · exact ⟨a, List.mem_cons_self a as, by rw [ha, hbw]⟩
        · obtain ⟨a', ha', hfa'⟩ := ih hrest b hbm
          exact ⟨a', List.mem_cons_of_mem a ha', hfa'⟩

theorem exMapM_congr_ok {f : α → Except ε α} :
    ∀ {l : List α}, (∀ a ∈ l, f a = .ok a) → exMapM f l = .ok l := by
  intro l
  induction l with
  | nil => intro _; rfl
  | cons a as ih =>
    intro h
    rw [exMapM, h a (List.mem_cons_self a as), ih (fun x hx => h x (List.mem_cons_of_mem a hx))]

theorem run_eq_exMapM (d : Dict) : PatchEngine.run d = exMapM patchEntry d := by
  have h1 : PatchEngine.run d =
      (exMapM (fun p => (fixNumVal p.2).map (fun w => (p.1, w)))
        (d.map (fun p => (p.1, fixDateVal p.1 p.2)))).map
        (fun nd => nd.map (fun p => (p.1, fixUpVal p.1 p.2))) := rfl
  rw [h1, exMapM_map]
  have h2 : ∀ (x : Except String Dict) (u : Dict → Dict) (u' : (String × Value) → (String × Value)),
      (∀ l, u l = l.map u') → x.map u = x.map (List.map u') := by
    intro x u u' hu
    cases x with
    | error e => rfl
    | ok l => rw [Except.map, Except.map, hu]
  rw [h2 _ _ (fun p => (p.1, fixUpVal p.1 p.2)) (fun l => rfl), exMapM_map_post]
  have hext : ∀ (f g : (String × Value) → Except String (String × Value)),
      (∀ a, f a = g a) → ∀ l, exMapM f l = exMapM g l := by
    intro f g hfg l
    induction l with
    | nil => rfl
    | cons a as ih => rw [exMapM, exMapM, hfg, ih]
  apply hext
  intro q
  show ((fixNumVal (fixDateVal q.1 q.2)).map (fun w => (q.1, w))).map
      (fun p => (p.1, fixUpVal p.1 p.2)) = patchEntry q
  rw [patchEntry]
  cases fixNumVal (fixDateVal q.1 q.2) with
  | error e => rfl
  | ok w => rfl

theorem fixUpVal_of_ne (k : String) (hk : ¬ k = "asset_id") (u : Value) : fixUpVal k u = u := by
  simp [fixUpVal, hk]

theorem patchEntry_idem (k : String) (v w : Value)
    (h : fixNumVal (fixDateVal k v) = .ok w) :
    patchEntry (k, fixUpVal k w) = .ok (k, fixUpVal k w) := by
  cases w with
  | num q =>
    have hup : fixUpVal k (.num q) = .num q := by
      simp [fixUpVal]
    rw [hup, patchEntry]
    show (fixNumVal (fixDateVal k (.num q))).map _ = _
    rw [show fixDateVal k (.num q) = .num q from rfl]
    rw [show fixNumVal (.num q) = .ok (.num q) from rfl]
    rw [Except.map, hup]
  | bool b =>
    have hup : fixUpVal k (.bool b) = .bool b := by
      simp [fixUpVal]
    rw [hup, patchEntry]
    show (fixNumVal (fixDateVal k (.bool b))).map _ = _
    rw [show fixDateVal k (.bool b) = .bool b from rfl]
    rw [show fixNumVal (.bool b) = .ok (.bool b) from rfl]
    rw [Except.map, hup]
  | null =>
    have hup : fixUpVal k .null = .null := by
      simp [fixUpVal]
    rw [hup, patchEntry]
    show (fixNumVal (fixDateVal k .null)).map _ = _
    rw [show fixDateVal k Value.null = Value.null from rfl]
    rw [show fixNumVal Value.null = Except.ok Value.null from rfl]
    rw [Except.map, hup]
  | arr vs =>
    have hup : fixUpVal k (.arr vs) = .arr vs := by
      simp [fixUpVal]
    rw [hup, patchEntry]
    show (fixNumVal (fixDateVal k (.arr vs))).map _ = _
    rw [show fixDateVal k (.arr vs) = .arr vs from rfl]
    rw [show fixNumVal (.arr vs) = .ok (.arr vs) from rfl]
    rw [Except.map, hup]
  | str t =>
    obtain ⟨hv1, hnm⟩ := fixNumVal_ok_str _ _ h
    have hd : fixDateVal k (.str t) = .str t := by
      have hidem := fixDateVal_idem k v
      rw [hv1] at hidem
      exact hidem
    by_cases hk : k = "asset_id"
    · subst hk
      by_cases hu : pyIsUpper t = true
      · have hupv : fixUpVal "asset_id" (.str t) = .str t := by
          simp [fixUpVal, hu]
        rw [hupv, patchEntry]
        show (fixNumVal (fixDateVal "asset_id" (.str t))).map _ = _
        rw [hd, fixNumVal_not_match t hnm, Except.map, hupv]
      · have hupv : fixUpVal "asset_id" (.str t) = .str (pyUpper t) := by
          simp [fixUpVal, hu]
        have hd2 : fixDateVal "asset_id" (.str (pyUpper t)) = .str (pyUpper t) := by
          rw [fixDateVal, if_neg]
          rw [show dateKeyName "asset_id" = false from by decide, Bool.false_and]
          exact Bool.false_ne_true
        have hnm2 : numPatMatch (pyUpper t) = false := by
          rw [numPatMatch_pyUpper]; exact hnm
        have hup2 : fixUpVal "asset_id" (.str (pyUpper t)) = .str (pyUpper t) := by
          by_cases hu2 : pyIsUpper (pyUpper t) = true
          · simp [fixUpVal, hu2]
          · simp [fixUpVal, hu2, pyUpper_idem]
        rw [hupv, patchEntry]
        show (fixNumVal (fixDateVal "asset_id" (.str (pyUpper t)))).map _ = _
        rw [hd2, fixNumVal_not_match _ hnm2, Except.map, hup2]
    · have hupt : fixUpVal k (.str t) = .str t := fixUpVal_of_ne k hk _
      rw [hupt, patchEntry]
      show (fixNumVal (fixDateVal k (.str t))).map _ = _
      rw [hd, fixNumVal_not_match t hnm, Except.map, hupt]

/-- C4: the patch engine is idempotent: for every input mapping, running
the full ordered heuristic sequence `PatchEngine.run` on its own output
produces no further changes (and an input on which patching raises makes
both sides raise the same error). -/
theorem patch_engine_idempotent (d : Dict) :
    (PatchEngine.run d).bind PatchEngine.run = PatchEngine.run d := by
  rw [run_eq_exMapM]
  cases h : exMapM patchEntry d with
  | error e => rfl
  | ok l =>
    show PatchEngine.run l = Except.ok l
    rw [run_eq_exMapM]
    apply exMapM_congr_ok
    intro p hp
    obtain ⟨q, hq, hfq⟩ := exMapM_ok_mem h p hp
    rw [patchEntry] at hfq
    cases hn : fixNumVal (fixDateVal q.1 q.2) with
    | error e => rw [hn] at hfq; cases hfq
    | ok w =>
      rw [hn, Except.map] at hfq
      cases hfq
      exact patchEntry_idem q.1 q.2 w hn

/-- C6: the ledger is strictly append-only: reading back after an append
extends the previous contents by exactly the new entry (so no prior
entry is mutated or removed), and after N appends starting from a
missing store the ledger holds exactly those N entries in insertion
order, oldest first. -/
theorem ledger_append_only :
    (∀ (α : Type) (st : Store α) (r : α),
      readLedger (append_to_ledger st r) = readLedger st ++ [r]) ∧
    (∀ (α : Type) (rs : List α),
      readLedger (rs.foldl append_to_ledger Store.missing) = rs) := by
  have h1 : ∀ (α : Type) (st : Store α) (r : α),
      readLedger (append_to_ledger st r) = readLedger st ++ [r] := by
    intro α st r
    cases st <;> rfl
  refine ⟨h1, ?_⟩
  intro α rs
  have h2 : ∀ (rs : List α) (st : Store α),
      readLedger (rs.foldl append_to_ledger st) = readLedger st ++ rs := by
    intro rs
    induction rs with
    | nil => intro st; simp
    | cons r rs ih =>
      intro st
      rw [List.foldl_cons, ih, h1]
      simp
  rw [h2]
  rfl

/-- Exhaustive case analysis of one `build` invocation. -/
theorem build_cases (fix : Bool) (raw : Dict) (ts : String) (st : Store CertRecord) :
    (∃ a, FinancialAsset.validate raw = .ok a ∧
      build fix raw ts st =
        (.certified (certify a fix ts), append_to_ledger st (certify a fix ts))) ∨
    (∃ es, FinancialAsset.validate raw = .error es ∧ fix = false ∧
      build fix raw ts st = (.rejected es, st)) ∨
    (∃ es m, FinancialAsset.validate raw = .error es ∧ fix = true ∧
      PatchEngine.run raw = .error m ∧ build fix raw ts st = (.patchCrash m, st)) ∨
    (∃ es pd a, FinancialAsset.validate raw = .error es ∧ fix = true ∧
      PatchEngine.run raw = .ok pd ∧ FinancialAsset.validate pd = .ok a ∧
      build fix raw ts st =
        (.certified (certify a fix ts), append_to_ledger st (certify a fix ts))) ∨
    (∃ es pd es2, FinancialAsset.validate raw = .error es ∧ fix = true ∧
      PatchEngine.run raw = .ok pd ∧ FinancialAsset.validate pd = .error es2 ∧
      build fix raw ts st = (.rejected es2, st)) := by
  cases hv : FinancialAsset.validate raw with
  | ok a => exact Or.inl ⟨a, rfl, by simp [build, hv]⟩
  | error es0 =>
    cases fix with
    | false => exact Or.inr (Or.inl ⟨es0, rfl, rfl, by simp [build, hv]⟩)
    | true =>
      cases hr : PatchEngine.run raw with
      | error m =>
        exact Or.inr (Or.inr (Or.inl ⟨es0, m, rfl, rfl, rfl, by simp [build, hv, hr]⟩))
      | ok pd =>
        cases hv2 : FinancialAsset.validate pd with
        | ok a2 =>
          exact Or.inr (Or.inr (Or.inr (Or.inl
            ⟨es0, pd, a2, rfl, rfl, rfl, hv2, by simp [build, hv, hr, hv2]⟩)))
        | error es2 =>
          exact Or.inr (Or.inr (Or.inr (Or.inr
            ⟨es0, pd, es2, rfl, rfl, rfl, hv2, by simp [build, hv, hr, hv2]⟩)))

/-- C9: the certified record's method field equals `AUTO_PATCHED` exactly
when the `--fix` flag was passed, independent of whether the patch engine
actually ran (in particular also on first-pass validation success). -/
theorem certified_method_iff_fix_flag (fix : Bool) (raw : Dict) (ts : String)
    (st : Store CertRecord) (r : CertRecord) (st' : Store CertRecord)
    (h : build fix raw ts st = (.certified r, st')) :
    r.method = "AUTO_PATCHED" ↔ fix = true := by
  have hrm : ∀ a, (certify a fix ts).method = if fix then "AUTO_PATCHED" else "DIRECT" := by
    intro a; rfl
  rcases build_cases fix raw ts st with
    ⟨a, hv, hb⟩ | ⟨es0, hv, hf, hb⟩ | ⟨es0, m, hv, hf, hr, hb⟩ |
    ⟨es0, pd, a, hv, hf, hr, hv2, hb⟩ | ⟨es0, pd, es2, hv, hf, hr, hv2, hb⟩
  · rw [hb] at h
    injection h with h1 h2
    injection h1 with h1
    rw [← h1, hrm]
    cases fix with
    | false => simp
    | true => simp
  · rw [hb] at h
    injection h with h1 h2
    cases h1
  · rw [hb] at h
    injection h with h1 h2
    cases h1
  · rw [hb] at h
    injection h with h1 h2
    injection h1 with h1
    rw [← h1, hrm]
    cases fix with
    | false => simp
    | true => simp
  · rw [hb] at h
    injection h with h1 h2
    cases h1

/-- Witness for C9 at a record that is valid on the first pass with the
fix flag set: the method still reads `AUTO_PATCHED`. -/
theorem certified_method_iff_fix_flag_w :
    (certify exAsset true "2026-10-12T00:00:00").method = "AUTO_PATCHED" :=
  (certified_method_iff_fix_flag true rawValidGBP "2026-10-12T00:00:00" Store.missing
    (certify exAsset true "2026-10-12T00:00:00")
    (append_to_ledger Store.missing (certify exAsset true "2026-10-12T00:00:00")) rfl).mpr rfl

/-- C2 counterexample: on the Scenario C input (missing issuer) the
pipeline returns the violation to the caller, but no FAILED ledger entry
is written: the ledger is exactly as it was. -/
theorem rejection_writes_no_ledger_entry_cex :
    build false rawMissingIssuer "2026-10-12T00:00:00" (Store.ok []) =
      (BuildResult.rejected [("issuer_name", "Field required")], Store.ok []) ∧
    readLedger (Store.ok ([] : List CertRecord)) = [] := ⟨rfl, rfl⟩

/-- C2 (amended): when validation fails (first pass without the fix
flag, or second pass after patching) the `build` command raises
`typer.Exit` carrying the violations and appends nothing: the ledger
state is returned unchanged. Only certified records reach the ledger. -/
theorem rejection_leaves_ledger_unchanged (fix : Bool) (raw : Dict) (ts : String)
    (st : Store CertRecord) (es : List Violation)
    (h : (build fix raw ts st).1 = .rejected es) : (build fix raw ts st).2 = st := by
  rcases build_cases fix raw ts st with
    ⟨a, hv, hb⟩ | ⟨es0, hv, hf, hb⟩ | ⟨es0, m, hv, hf, hr, hb⟩ |
    ⟨es0, pd, a, hv, hf, hr, hv2, hb⟩ | ⟨es0, pd, es2, hv, hf, hr, hv2, hb⟩
  · rw [hb] at h; cases h
  · rw [hb]
  · rw [hb] at h; cases h
  · rw [hb] at h; cases h
  · rw [hb]

/-- Witness for the amended C2 at the Scenario C input. -/
theorem rejection_leaves_ledger_unchanged_w :
    (build false rawMissingIssuer "2026-10-12T00:00:00" (Store.ok [])).2 = Store.ok [] :=
  rejection_leaves_ledger_unchanged false rawMissingIssuer "2026-10-12T00:00:00"
    (Store.ok []) [("issuer_name", "Field required")] rfl

/-- C10: a raw mapping with no `currency` key whose other fields all
satisfy their constraints validates successfully, and the resulting
record's currency is the silently applied default `USD`. -/
theorem missing_currency_defaults_to_usd (raw : Dict)
    (hc : raw.lookup "currency" = none)
    (a t i : String) (p : ℚ) (m : Option DateTime) (ds : List String)
    (h1 : FinancialAsset.checkAssetId raw = .ok a)
    (h2 : FinancialAsset.checkAssetType raw = .ok t)
    (h3 : FinancialAsset.checkIssuerName raw = .ok i)
    (h4 : FinancialAsset.checkPrice raw = .ok p)
    (h5 : FinancialAsset.checkMaturity raw = .ok m)
    (h6 : FinancialAsset.checkDocs raw = .ok ds) :
    FinancialAsset.validate raw = .ok ⟨a, t, i, p, "USD", m, ds⟩ := by
  have hcur : FinancialAsset.checkCurrency raw = .ok "USD" := by
    rw [FinancialAsset.checkCurrency, hc]
  rw [FinancialAsset.validate, h1, h2, h3, h4, hcur, h5, h6]

/-- Witness for C10 at a concrete record lacking the currency key. -/
theorem missing_currency_defaults_to_usd_w :
    FinancialAsset.validate rawMissingCurrency =
      .ok ⟨"XBOND9", "Stock", "Acme Industrial", 5, "USD", none, []⟩ :=
  missing_currency_defaults_to_usd rawMissingCurrency rfl
    "XBOND9" "Stock" "Acme Industrial" 5 none [] rfl rfl rfl rfl rfl rfl

/-- C1 (policy modelled from the spec): whenever the record's currency
code is outside the current policy snapshot's allowed set, validation
against that snapshot fails with outcome status FAILED and a violation
mentioning the rejected code; the snapshot is consulted on every call,
so the same raw input flips to FAILED as soon as the set is narrowed. -/
theorem currency_policy_rejection (raw : Dict) (P : PolicyRules) (c : String)
    (hc : currencyOf raw = some c)
    (hmem : P.allowed_currencies.contains c = false) :
    ∃ es, replayOutcome raw P = ("FAILED", es) ∧
      ("currency", "Currency " ++ c ++ " is not in the allowed-currency set") ∈ es := by
  have hpe : policyErrs raw P =
      [("currency", "Currency " ++ c ++ " is not in the allowed-currency set")] := by
    rw [policyErrs, hc]
    show (if P.allowed_currencies.contains c = true then []
      else [("currency", "Currency " ++ c ++ " is not in the allowed-currency set")]) = _
    rw [hmem]
    rfl
  rw [replayOutcome, validate_with_policy, hpe]
  cases hv : FinancialAsset.validate raw with
  | ok a => exact ⟨_, rfl, List.mem_singleton.mpr rfl⟩
  | error bs => exact ⟨_, rfl, List.mem_append.mpr (Or.inr (List.mem_singleton.mpr rfl))⟩

/-- Witness for C1, the Scenario B replay: under the wide snapshot the
GBP record validates with SUCCESS, and replaying the identical raw input
under the narrowed snapshot yields FAILED with a violation naming GBP. -/
theorem currency_policy_rejection_w :
    (∃ es, replayOutcome rawValidGBP policyNew = ("FAILED", es) ∧
      ("currency", "Currency " ++ "GBP" ++ " is not in the allowed-currency set") ∈ es) ∧
    replayOutcome rawValidGBP policyOld = ("SUCCESS", []) :=
  ⟨currency_policy_rejection rawValidGBP policyNew "GBP" rfl rfl, rfl⟩

/-- C7 (code bug): on the value `"5M\n"` the magnitude-suffix regex also
matches (Python `$` matches before a trailing newline), `float("5M")`
then raises an uncaught `ValueError`, and the whole patch run crashes
instead of leaving the non-conforming value unchanged. -/
theorem fix_numbers_crash_on_newline :
    PatchEngine.run [("price", Value.str "5M\n")] =
      .error ("could not convert string to float: 5M") := rfl

/-- The Scenario A patch run, with the multiplied rational normalized. -/
theorem scenarioA_run : PatchEngine.run scenarioA = .ok scenarioAPatched := by
  have h : PatchEngine.run scenarioA = .ok
      [("currency", Value.str "usd "), ("face_value", Value.num (((5 : ℕ) : ℚ) * 1000000)),
       ("maturity_date", Value.str "2030-01-01T00:00:00"), ("isin", Value.str "US1234567890"),
       ("issuer", Value.str "Global Corp")] := rfl
  rw [h, scenarioAPatched]
  norm_num

/-- C3 counterexample: patching the Scenario A input leaves the currency
as the four-character string `"usd "` (no heuristic touches it), and the
patched mapping then fails `FinancialAsset` validation outright, so no
trace identifier is ever produced for it. -/
theorem scenarioA_cex :
    PatchEngine.run scenarioA = .ok scenarioAPatched ∧
    scenarioAPatched.lookup "currency" = some (Value.str "usd ") ∧
    FinancialAsset.validate scenarioAPatched =
      .error [("asset_id", "Field required"), ("asset_type", "Field required"),
              ("issuer_name", "Field required"), ("price", "Field required"),
              ("currency", "String should have at most 3 characters")] :=
  ⟨scenarioA_run, rfl, rfl⟩

/-- C3 (amended): on the Scenario A input the patch engine normalizes
`face_value` to the number 5000000 and `maturity_date` to the ISO string,
leaves `currency` as `"usd "`, and the patched mapping is rejected by
validation (the schema's required fields are absent and the currency is
not three characters), so the pipeline rejects instead of certifying. -/
theorem scenarioA_behavior :
    PatchEngine.run scenarioA = .ok scenarioAPatched ∧
    scenarioAPatched.lookup "face_value" = some (Value.num 5000000) ∧
    scenarioAPatched.lookup "maturity_date" = some (Value.str "2030-01-01T00:00:00") ∧
    scenarioAPatched.lookup "currency" = some (Value.str "usd ") ∧
    (build true scenarioA "2026-10-12T00:00:00" Store.missing).1 =
      BuildResult.rejected [("asset_id", "Field required"), ("asset_type", "Field required"),
        ("issuer_name", "Field required"), ("price", "Field required"),
        ("currency", "String should have at most 3 characters")] :=
  ⟨scenarioA_run, rfl, rfl, rfl, rfl⟩

/-! Helper lemmas: slash splitting and sorted-permutation uniqueness. -/

theorem splitOnChar_no_sep (sep : Char) (cs : List Char) (h : ∀ x ∈ cs, ¬ x = sep) :
    splitOnChar sep cs = [cs] := by
  induction cs with
  | nil => rfl
  | cons c cs ih =>
    rw [splitOnChar, ih (fun x hx => h x (List.mem_cons_of_mem c hx))]
    show (if c = sep then [] :: cs :: [] else (c :: cs) :: []) = [c :: cs]
    rw [if_neg (h c (List.mem_cons_self c cs))]

theorem parseYmdSlash_some_contains (s : String) (dt : DateTime)
    (h : parseYmdSlash s = some dt) : s.data.contains '/' = true := by
  by_cases hc : s.data.contains '/' = true
  · exact hc
  · have hns : ∀ x ∈ s.data, ¬ x = '/' := by
      intro x hx hxe
      exact hc (List.elem_eq_true_of_mem (hxe ▸ hx))
    rw [parseYmdSlash, splitOnChar_no_sep '/' s.data hns] at h
    cases h

theorem isoDT_isIso (dt : DateTime) : isIso8601DateTime (isoDT dt) = true := by
  have hd : ∀ n : Nat, (Nat.digitChar (n % 10)).isDigit = true :=
    fun n => (digitChar_props _ (Nat.mod_lt _ (by norm_num))).1
  have h : (isoDT dt).data =
      [Nat.digitChar (dt.year / 1000 % 10), Nat.digitChar (dt.year / 100 % 10),
       Nat.digitChar (dt.year / 10 % 10), Nat.digitChar (dt.year % 10), '-',
       Nat.digitChar (dt.month / 10 % 10), Nat.digitChar (dt.month % 10), '-',
       Nat.digitChar (dt.day / 10 % 10), Nat.digitChar (dt.day % 10), 'T',
       Nat.digitChar (dt.hour / 10 % 10), Nat.digitChar (dt.hour % 10), ':',
       Nat.digitChar (dt.minute / 10 % 10), Nat.digitChar (dt.minute % 10), ':',
       Nat.digitChar (dt.second / 10 % 10), Nat.digitChar (dt.second % 10)] := rfl
  rw [isIso8601DateTime, h]
  simp [hd]

/-- C8: for every date-named field (name containing `date` or equal to
`maturity`) holding a string, `fix_dates` rewrites the value to an
ISO-8601 timestamp string exactly when `strptime` parses it as a
`YYYY/MM/DD` date, and leaves the value untouched when parsing fails;
the heuristic is total (the `ValueError` is caught), so it never raises. -/
theorem fix_dates_characterization (d : Dict) (k s : String)
    (hmem : (k, Value.str s) ∈ d) (hk : dateKeyName k = true) :
    (∃ dt, parseYmdSlash s = some dt ∧
      (k, Value.str (isoDT dt)) ∈ PatchEngine.fix_dates d ∧
      isIso8601DateTime (isoDT dt) = true) ∨
    (parseYmdSlash s = none ∧ (k, Value.str s) ∈ PatchEngine.fix_dates d) := by
  have hmap : (k, fixDateVal k (Value.str s)) ∈ PatchEngine.fix_dates d := by
    rw [PatchEngine.fix_dates]
    exact List.mem_map.mpr ⟨(k, Value.str s), hmem, rfl⟩
  cases hp : parseYmdSlash s with
  | some dt =>
    left
    refine ⟨dt, rfl, ?_, isoDT_isIso dt⟩
    have hcond : (dateKeyName k && s.data.contains '/') = true := by
      rw [hk, parseYmdSlash_some_contains s dt hp]
      rfl
    have hval : fixDateVal k (Value.str s) = Value.str (isoDT dt) := by
      show (if (dateKeyName k && s.data.contains '/') = true then
          match parseYmdSlash s with
          | some dt => Value.str (isoDT dt)
          | none => Value.str s
        else Value.str s) = Value.str (isoDT dt)
      rw [if_pos hcond, hp]
    rw [hval] at hmap
    exact hmap
  | none =>
    right
    refine ⟨rfl, ?_⟩
    have hval : fixDateVal k (Value.str s) = Value.str s := by
      rcases fixDateVal_cases k s with h | ⟨dt, hp2, h⟩
      · exact h
      · rw [hp2] at hp; cases hp
    rw [hval] at hmap
    exact hmap

/-- Witness for C8 at the field `maturity_date` holding `2030/01/01`. -/
theorem fix_dates_characterization_w :
    (∃ dt, parseYmdSlash "2030/01/01" = some dt ∧
      ("maturity_date", Value.str (isoDT dt)) ∈
        PatchEngine.fix_dates [("maturity_date", Value.str "2030/01/01")] ∧
      isIso8601DateTime (isoDT dt) = true) ∨
    (parseYmdSlash "2030/01/01" = none ∧
      ("maturity_date", Value.str "2030/01/01") ∈
        PatchEngine.fix_dates [("maturity_date", Value.str "2030/01/01")]) :=
  fix_dates_characterization [("maturity_date", Value.str "2030/01/01")]
    "maturity_date" "2030/01/01" (List.mem_cons_self _ _) rfl

theorem pairwise_lt_perm_eq :
    ∀ (l₁ l₂ : Dict), l₁.Perm l₂ →
      l₁.Pairwise (fun a b => a.1 < b.1) → l₂.Pairwise (fun a b => a.1 < b.1) → l₁ = l₂ := by
  intro l₁
  induction l₁ with
  | nil =>
    intro l₂ hp _ _
    exact (List.Perm.eq_nil hp.symm).symm
  | cons a t ih =>
    intro l₂ hp h1 h2
    have ha : a ∈ l₂ := hp.mem_iff.mp (List.mem_cons_self a t)
    cases l₂ with
    | nil => exact absurd ha (List.not_mem_nil a)
    | cons b t₂ =>
      by_cases hab : a = b
      · subst hab
        rw [ih t₂ hp.cons_inv (List.pairwise_cons.mp h1).2 (List.pairwise_cons.mp h2).2]
      · have ha2 : a ∈ t₂ := by
          rcases List.mem_cons.mp ha with h | h
          · exact absurd h hab
          · exact h
        have hb : b ∈ a :: t := hp.mem_iff.mpr (List.mem_cons_self b t₂)
        have hb2 : b ∈ t := by
          rcases List.mem_cons.mp hb with h | h
          · exact absurd h.symm hab
          · exact h
        have hlt1 : a.1 < b.1 := (List.pairwise_cons.mp h1).1 b hb2
        have hlt2 : b.1 < a.1 := (List.pairwise_cons.mp h2).1 a ha2
        exact absurd hlt1 (lt_asymm hlt2)

theorem sortEntries_pairwise_lt (d : Dict) (hn : (d.map Prod.fst).Nodup) :
    (sortEntries d).Pairwise (fun a b => a.1 < b.1) := by
  have hperm : (sortEntries d).Perm d := List.mergeSort_perm d _
  have hs : (sortEntries d).Pairwise (fun a b => (decide (a.1 ≤ b.1)) = true) := by
    apply List.sorted_mergeSort
    · intro a b c hab hbc
      rw [decide_eq_true_eq] at hab hbc ⊢
      exact le_trans hab hbc
    · intro a b
      rcases le_total a.1 b.1 with h | h <;> simp [h]
  have hnodup : ((sortEntries d).map Prod.fst).Nodup :=
    ((hperm.map Prod.fst).nodup_iff).mpr hn
  have hne : (sortEntries d).Pairwise (fun a b => a.1 ≠ b.1) :=
    List.pairwise_map.mp hnodup
  have hcomb := hs.and hne
  exact hcomb.imp (fun hab =>
    lt_of_le_of_ne (by have h := hab.1; rwa [decide_eq_true_eq] at h) hab.2)

theorem sortEntries_eq_of_perm (d₁ d₂ : Dict) (hp : d₁.Perm d₂)
    (hn : (d₁.map Prod.fst).Nodup) : sortEntries d₁ = sortEntries d₂ := by
  have hn₂ : (d₂.map Prod.fst).Nodup := ((hp.map Prod.fst).nodup_iff).mp hn
  have hp12 : (sortEntries d₁).Perm (sortEntries d₂) :=
    (List.mergeSort_perm d₁ _).trans (hp.trans (List.mergeSort_perm d₂ _).symm)
  exact pairwise_lt_perm_eq _ _ hp12 (sortEntries_pairwise_lt d₁ hn) (sortEntries_pairwise_lt d₂ hn₂)

/-- C5: the trace identifier depends only on the record's contents:
mappings holding the same key-value pairs (no duplicate keys) in any
order canonicalize to the same sorted JSON string and therefore hash to
the same hex digest. -/
theorem trace_id_key_order_invariant (d₁ d₂ : Dict) (hp : d₁.Perm d₂)
    (hn : (d₁.map Prod.fst).Nodup) :
    generate_trace_id d₁ = generate_trace_id d₂ := by
  rw [generate_trace_id, generate_trace_id, canonical_json, canonical_json,
    sortEntries_eq_of_perm d₁ d₂ hp hn]

/-- Witness for C5 at a concrete two-field record and its flipped ordering. -/
theorem trace_id_key_order_invariant_w :
    generate_trace_id permDict1 = generate_trace_id permDict2 :=
  trace_id_key_order_invariant permDict1 permDict2
    (List.Perm.swap ("asset_id", Value.str "ABC123") ("price", Value.num 100) [])
    (by decide)
